import Mathlib

/-!
# Verification of the `BlockIter` cursor (`src/yrs/src/block_iter.rs`)

A shallow embedding of the positional cursor over a replicated sequence's
block chain, together with theorems settling the specification claims.

Modelling conventions:

* `BlockPtr` is modelled as a stable handle (`Ptr := Nat`) indexing into an
  arena of blocks (`World.blocks : List Item`); links are index-valued, as the
  spec's design notes prescribe.
* The spec places the transaction/store machinery, garbage-collected (`GC`)
  blocks and the move-resolution internals out of scope; blocks are therefore
  always `Item`s here, and the resolution of relative positions
  (`get_moved_coords`, `within_range`) is modelled from the spec's words —
  those definitions carry a doc comment starting with `Modelled from the
  spec:`.
* Machine integers (`u32`) are modelled as `Nat`.  Additions cannot overflow
  in any state a claim exercises; the one subtraction the source performs
  without a guard (`self.index -= len` at the end of `forward`) is modelled
  with the checked (debug-build) semantics: underflow is a fatal outcome,
  `Panic.subUnderflow`.
* Loops are modelled with explicit fuel; running out of fuel yields the
  distinguished outcome `Outcome.diverge`, which is neither a normal return
  nor a panic.
* `Vec` push/pop act on the end of the vector; the model keeps the stack top
  at the head of a `List`, which is the same abstract stack.
* Explicit `panic!`/`todo!` sites of the source are mapped one-to-one onto
  constructors of `Panic`, so distinct panic messages stay distinguishable.
-/

namespace Yrs

/-- Stable handle standing in for `BlockPtr`: an index into the block arena. -/
abbrev Ptr := Nat

/-- Block identifier: (replica/client id, logical clock). -/
structure ID where
  client : Nat
  clock : Nat
deriving DecidableEq

/-- Modelled from the spec: a Relative Position (§3) — an association bias
plus the concrete boundary it currently resolves to.  Since the chain is
fixed during a single traversal in this embedding, the resolution is carried
as a field (`resolved`), and the set of previously-saved boundaries that are
"no longer within range" (§4.2) is carried explicitly (`stale`). -/
structure RelativePosition where
  /-- `true` means left-biased (the `assoc < 0` case of the source's doc
  comment on `pop`). -/
  assoc : Bool
  /-- The concrete optional Item boundary this position resolves to at the
  current chain state. -/
  resolved : Option Ptr
  /-- Boundaries that concurrent edits have made stale for this position. -/
  stale : List (Option Ptr)
deriving DecidableEq

/-- Modelled from the spec (§4.2): reports that a previously-saved boundary
"is no longer within range" of this position (content was inserted that
changes containment), which is the spec's trigger for recomputing boundaries
when popping a move context. -/
def RelativePosition.within_range (rp : RelativePosition) (p : Option Ptr) : Bool :=
  rp.stale.contains p

/-- A Move descriptor: two Relative Positions naming the relocated source
range, plus a pass-through priority (§3). -/
structure Move where
  start : RelativePosition
  end_ : RelativePosition
  priority : Int
deriving DecidableEq

/-- Modelled from the spec (§4.2): `get_moved_coords(txn)` resolves both
Relative Positions against the current chain state, returning concrete
optional Item boundaries. -/
def Move.get_moved_coords (m : Move) : Option Ptr × Option Ptr :=
  (m.start.resolved, m.end_.resolved)

/-- The tagged content of an Item: a countable payload (a run of values), a
Move descriptor, or a zero-width non-countable marker (§3). -/
inductive ItemContent where
  | values (vs : List Nat)
  | move (m : Move)
  | format
deriving DecidableEq

def ItemContent.is_countable : ItemContent → Bool
  | .values _ => true
  | .move _ => false
  | .format => false

def ItemContent.len : ItemContent → Nat
  | .values vs => vs.length
  | .move _ => 1
  | .format => 1

/-- One node of the block chain (§3). `origin`/`right_origin` belong to the
external integration algorithm and are not touched by the cursor, so they are
omitted. -/
structure Item where
  id : ID
  left : Option Ptr
  right : Option Ptr
  content : ItemContent
  deleted : Bool
  moved : Option Ptr
deriving DecidableEq

def Item.is_countable (i : Item) : Bool := i.content.is_countable

def Item.is_deleted (i : Item) : Bool := i.deleted

/-- `content_len(encoding)`: payloads are unit-valued here, so the UTF-16 and
codepoint counting conventions coincide and the `encoding` argument is
dropped. -/
def Item.content_len (i : Item) : Nat := i.content.len

/-- Collection root: first Item and the derived total live length (§3).  The
cursor only ever reads `content_len`; its maintenance belongs to the external
transaction collaborator. -/
structure Branch where
  start : Option Ptr
  content_len : Nat
deriving DecidableEq

/-- One suspended enclosing move context. -/
structure StackItem where
  start : Option Ptr
  end_ : Option Ptr
  moved_to : Ptr
deriving DecidableEq

/-- The cursor state (§3).  The source's `branch: BranchPtr` field is a
shared pointer to the one branch of the `World` below, so it is kept there
rather than copied into the cursor. -/
@[ext]
structure BlockIter where
  index : Nat
  rel : Nat
  next_item : Option Ptr
  curr_move : Option Ptr
  curr_move_start : Option Ptr
  curr_move_end : Option Ptr
  moved_stack : List StackItem
  reached_end : Bool
deriving DecidableEq

/-- The block store and the branch the cursor walks: the state owned by the
external transaction/store collaborator, as seen through the cursor's
interface. -/
structure World where
  blocks : List Item
  branch : Branch
deriving DecidableEq

def World.get (w : World) (p : Ptr) : Option Item := w.blocks[p]?

def World.getOpt (w : World) (p : Option Ptr) : Option Item := p.bind w.get

/-- The explicit `panic!`/`todo!` sites of the source, one constructor per
distinct message, plus the checked-arithmetic underflow outcome. -/
inductive Panic where
  /-- "Length exceeded" (in `backward`, `delete`, `slice`). -/
  | lengthExceeded
  /-- "Defect: length exceeded" (entry of `forward`). -/
  | defectLengthExceeded
  /-- "Defect: unexpected case during block iter forward". -/
  | defectForward
  /-- "Defect: block iterator slice has no next item". -/
  | defectSliceNoNext
  /-- "Defect: should not happen" (in `delete`). -/
  | defectDelete
  /-- Debug-semantics underflow of the unguarded `self.index -= len`. -/
  | subUnderflow
  /-- `todo!()` in the `Iterator` impl for `BlockIter`. -/
  | todoUnimplemented
deriving DecidableEq

/-- Result of a cursor operation: normal return, fatal defect, or
non-termination (fuel exhausted). -/
inductive Outcome (α : Type) where
  | ok (a : α)
  | panic (p : Panic)
  | diverge
deriving DecidableEq

/-- `BlockIter::new`. -/
def BlockIter.new (w : World) : BlockIter :=
  { index := 0, rel := 0, next_item := w.branch.start,
    curr_move := none, curr_move_start := none, curr_move_end := none,
    moved_stack := [], reached_end := w.branch.start.isNone }

/-- `BlockIter::can_forward` (block_iter.rs lines 79-93). -/
def BlockIter.can_forward (it : BlockIter) (w : World) (ptr : Option Ptr) (len : Nat) : Bool :=
  if !it.reached_end || it.curr_move.isSome then
    if 0 < len then true
    else
      match w.getOpt ptr with
      | some item =>
        !item.is_countable || item.is_deleted || (ptr == it.curr_move_end)
          || (it.reached_end && it.curr_move_end.isNone) || (item.moved != it.curr_move)
      | none => false
  else false

/-- `BlockIter::pop` (lines 264-286): restore the enclosing move context from
the moved stack, recomputing its boundaries when the source's condition
fires.  The source's `moved_to.as_item().unwrap()` cannot fail here because
every block of the model is an `Item`; a dangling handle reuses the saved
boundaries. -/
def BlockIter.pop (it : BlockIter) (w : World) : BlockIter :=
  match it.moved_stack with
  | [] =>
    { it with curr_move := none, curr_move_start := none, curr_move_end := none,
              reached_end := false }
  | si :: rest =>
    let se :=
      match w.get si.moved_to with
      | some movedItem =>
        match movedItem.content with
        | .move m =>
          if (m.start.assoc && m.start.within_range si.start) || m.end_.within_range si.end_ then
            m.get_moved_coords
          else (si.start, si.end_)
        | _ => (si.start, si.end_)
      | none => (si.start, si.end_)
    { it with curr_move := some si.moved_to, curr_move_start := se.1, curr_move_end := se.2,
              moved_stack := rest, reached_end := false }

/-- The shared tail of the `forward` loop body (lines 149-157): the
reached-end defect check followed by the step to the right link; `none`
signals the "unexpected case" defect. -/
def forwardFallthrough (it : BlockIter) (i : Item) (item : Option Ptr) :
    Option (BlockIter × Option Ptr) :=
  if it.reached_end then none
  else
    match i.right with
    | some r => some (it, some r)
    | none => some ({ it with reached_end := true }, item)

/-- The `while self.can_forward(item, len)` loop of `forward` (lines
112-159).  A handle that resolves to no block re-runs the loop unchanged,
mirroring the source's empty fall-through for non-`Item` blocks. -/
def forwardLoop (w : World) : Nat → BlockIter → Option Ptr → Nat →
    Outcome (BlockIter × Option Ptr × Nat)
  | 0, _, _, _ => .diverge
  | Nat.succ fuel, it, item, len =>
    if it.can_forward w item len then
      if item == it.curr_move_end
          || (it.reached_end && it.curr_move_end.isNone && it.curr_move.isSome) then
        let item' := it.curr_move
        forwardLoop w fuel (it.pop w) item' len
      else
        match item with
        | none => .panic .defectForward
        | some p =>
          match w.get p with
          | none => forwardLoop w fuel it item len
          | some i =>
            if i.is_countable && !i.is_deleted && (i.moved == it.curr_move)
                && decide (0 < len) then
              if decide (i.content_len > len) then
                .ok ({ it with rel := len }, item, 0)
              else
                match forwardFallthrough it i item with
                | none => .panic .defectForward
                | some (it', item') => forwardLoop w fuel it' item' (len - i.content_len)
            else
              match i.content with
              | .move m =>
                if i.moved == it.curr_move then
                  let it' :=
                    match it.curr_move with
                    | some cm =>
                      { it with moved_stack :=
                          ⟨it.curr_move_start, it.curr_move_end, cm⟩ :: it.moved_stack }
                    | none => it
                  let se := m.get_moved_coords
                  forwardLoop w fuel
                    { it' with curr_move := item, curr_move_start := se.1,
                               curr_move_end := se.2 }
                    se.1 len
                else
                  match forwardFallthrough it i item with
                  | none => .panic .defectForward
                  | some (it', item') => forwardLoop w fuel it' item' len
              | _ =>
                match forwardFallthrough it i item with
                | none => .panic .defectForward
                | some (it', item') => forwardLoop w fuel it' item' len
    else .ok (it, item, len)

/-- `BlockIter::forward` (lines 95-163). -/
def forward (w : World) (fuel : Nat) (it : BlockIter) (len : Nat) : Outcome BlockIter :=
  if len == 0 && it.next_item.isNone then .ok it
  else if decide (it.index + len > w.branch.content_len) || it.next_item.isNone then
    .panic .defectLengthExceeded
  else
    let item := it.next_item
    let it := { it with index := it.index + len }
    let pair := if it.rel != 0 then ({ it with rel := 0 }, len + it.rel) else (it, len)
    match forwardLoop w fuel pair.1 item pair.2 with
    | .ok (it, item, len) =>
      if decide (len ≤ it.index) then
        .ok { it with index := it.index - len, next_item := item }
      else .panic .subUnderflow
    | .panic p => .panic p
    | .diverge => .diverge

/-- The tail of the `backward` loop body (lines 243-252): exit of a move
context when the position reaches its resolved start, then the step to the
left link.  The source reads `self.curr_move` before calling `pop`. -/
def backwardFallthrough (it : BlockIter) (w : World) (item : Option Ptr) :
    BlockIter × Option Ptr :=
  let pair := if item == it.curr_move_start then (it.pop w, it.curr_move) else (it, item)
  let item' :=
    match w.getOpt pair.2 with
    | some i => i.left
    | none => none
  (pair.1, item')

/-- The `while let Some(Block::Item(i)) = item.as_deref()` loop of `backward`
(lines 209-253). -/
def backwardLoop (w : World) : Nat → BlockIter → Option Ptr → Nat →
    Outcome (BlockIter × Option Ptr)
  | 0, _, _, _ => .diverge
  | Nat.succ fuel, it, item, len =>
    match item with
    | none => .ok (it, item)
    | some p =>
      match w.get p with
      | none => .ok (it, item)
      | some i =>
        if len == 0 then .ok (it, item)
        else if i.is_countable && !i.is_deleted && (i.moved == it.curr_move) then
          if decide (len < i.content_len) then
            .ok ({ it with rel := i.content_len - len }, item)
          else if (len - i.content_len) == 0 then .ok (it, item)
          else
            let st := backwardFallthrough it w (some p)
            backwardLoop w fuel st.1 st.2 (len - i.content_len)
        else
          match i.content with
          | .move m =>
            if i.moved == it.curr_move then
              let it' :=
                match it.curr_move with
                | some cm =>
                  { it with moved_stack :=
                      ⟨it.curr_move_start, it.curr_move_end, cm⟩ :: it.moved_stack }
                | none => it
              let se := m.get_moved_coords
              backwardLoop w fuel
                { it' with curr_move := some p, curr_move_start := se.1,
                           curr_move_end := se.2 }
                se.1 len
            else
              let st := backwardFallthrough it w (some p)
              backwardLoop w fuel st.1 st.2 len
          | _ =>
            let st := backwardFallthrough it w (some p)
            backwardLoop w fuel st.1 st.2 len

/-- `BlockIter::backward` (lines 176-255). -/
def backward (w : World) (fuel : Nat) (it : BlockIter) (len : Nat) : Outcome BlockIter :=
  if decide (it.index < len) then .panic .lengthExceeded
  else
    let it := { it with index := it.index - len }
    let it :=
      if it.reached_end then
        match w.getOpt it.next_item with
        | some ni =>
          { it with rel := if ni.is_countable && !ni.is_deleted then ni.content_len else 0 }
        | none => it
      else it
    if decide (it.rel ≥ len) then .ok { it with rel := it.rel - len }
    else
      let item := it.next_item
      let pair :=
        match w.getOpt item with
        | some i =>
          match i.content with
          | .move _ => (i.left, len)
          | _ =>
            let add := if i.is_countable && !i.is_deleted && (i.moved == it.curr_move)
                       then i.content_len else 0
            (item, len + add - it.rel)
        | none => (item, len)
      let it := { it with rel := 0 }
      match backwardLoop w fuel it pair.1 pair.2 with
      | .ok (it, item) => .ok { it with next_item := item }
      | .panic p => .panic p
      | .diverge => .diverge

/-- `BlockIter::move_to` (lines 71-77). -/
def move_to (w : World) (fuel : Nat) (it : BlockIter) (index : Nat) : Outcome BlockIter :=
  if index > it.index then forward w fuel it (index - it.index)
  else if index < it.index then backward w fuel it (it.index - index)
  else .ok it

/-- `<BlockIter as Iterator>::next` (lines 476-482) is `todo!()`. -/
def iterNext (_it : BlockIter) : Outcome (Option Nat × BlockIter) :=
  .panic .todoUnimplemented

/-- `ArraySliceConcat::slice`: read up to `len` units of payload starting at
offset `off`; non-payload content yields nothing. -/
def sliceContent (c : ItemContent) (off len : Nat) : List Nat :=
  match c with
  | .values vs => (vs.drop off).take len
  | _ => []

/-- `BlockPtr::is_countable` on an optional handle. -/
def ptrIsCountable (w : World) (p : Ptr) : Bool :=
  match w.get p with
  | some i => i.is_countable
  | none => false

/-- The inner `while let Some(ptr) = next_item` loop of `slice` (lines
353-386). -/
def sliceInner (w : World) : Nat → BlockIter → Option Ptr → Nat → List Nat →
    Outcome (BlockIter × Option Ptr × Nat × List Nat)
  | 0, _, _, _, _ => .diverge
  | Nat.succ fuel, it, next_item, len, value =>
    match next_item with
    | none => .ok (it, next_item, len, value)
    | some ptr =>
      if (some ptr != it.curr_move_end) && ptrIsCountable w ptr && !it.reached_end
          && decide (0 < len) then
        match w.get ptr with
        | none => .ok (it, next_item, len, value)
        | some item =>
          if !item.is_deleted && (item.moved == it.curr_move) then
            let sliced := sliceContent item.content it.rel len
            let len' := len - sliced.length
            let value' := value ++ sliced
            if it.rel + sliced.length == item.content_len then
              let it' := { it with rel := 0 }
              match item.right with
              | some r => sliceInner w fuel { it' with next_item := some r } (some r) len' value'
              | none => sliceInner w fuel { it' with reached_end := true } next_item len' value'
            else
              sliceInner w fuel { it with rel := it.rel + sliced.length } next_item len' value'
          else
            match item.right with
            | some r => sliceInner w fuel { it with next_item := some r } (some r) len value
            | none => sliceInner w fuel { it with reached_end := true } next_item len value
      else .ok (it, next_item, len, value)

/-- The outer `while len > 0 && !self.reached_end` loop of `slice` (lines
352-396), including the zero-length `forward` fallback used to cross
structural boundaries. -/
def sliceOuter (w : World) : Nat → BlockIter → Option Ptr → Nat → List Nat →
    Outcome (BlockIter × Option Ptr × Nat × List Nat)
  | 0, _, _, _, _ => .diverge
  | Nat.succ fuel, it, next_item, len, value =>
    if decide (0 < len) && !it.reached_end then
      match sliceInner w (Nat.succ fuel) it next_item len value with
      | .ok (it, next_item, len, value) =>
        if (!it.reached_end || it.curr_move.isNone) && decide (0 < len) then
          let it := { it with next_item := next_item }
          match forward w (Nat.succ fuel) it 0 with
          | .ok it =>
            if it.next_item.isNone then .panic .defectSliceNoNext
            else sliceOuter w fuel it it.next_item len value
          | .panic p => .panic p
          | .diverge => .diverge
        else sliceOuter w fuel it next_item len value
      | .panic p => .panic p
      | .diverge => .diverge
    else .ok (it, next_item, len, value)

/-- `BlockIter::slice` (lines 342-402). -/
def slice (w : World) (fuel : Nat) (it : BlockIter) (len : Nat) (value : List Nat) :
    Outcome (BlockIter × List Nat) :=
  if it.index + len == w.branch.content_len then .panic .lengthExceeded
  else
    let it := { it with index := it.index + len }
    let next_item := it.next_item
    match sliceOuter w fuel it next_item len value with
    | .ok (it, next_item, len, value) =>
      let it := { it with next_item := next_item }
      let it := if decide (len < 0) then { it with index := it.index - len } else it
      .ok (it, value)
    | .panic p => .panic p
    | .diverge => .diverge

/-- `<Values as Iterator>::next` (lines 495-508): one pull on the content
sequence produced by `values(txn)`. -/
def valuesNext (w : World) (fuel : Nat) (it : BlockIter) : Outcome (Option Nat × BlockIter) :=
  if it.reached_end || it.index == w.branch.content_len then .ok (none, it)
  else
    match slice w fuel it 1 [] with
    | .ok (it, content) => .ok (content.getLast?, it)
    | .panic p => .panic p
    | .diverge => .diverge

/-- Splitting a content run at offset `d`; only countable runs are ever
split by the cursor's requests. -/
def splitContent (c : ItemContent) (d : Nat) : ItemContent × ItemContent :=
  match c with
  | .values vs => (.values (vs.take d), .values (vs.drop d))
  | c => (c, c)

/-- `store_mut().blocks.get_item_clean_start(id)` (spec §6): split the block
containing `id` so that a block boundary exists exactly at `id`'s offset, and
return the (possibly newly created) block starting there.  The split keeps
the left part at its old handle, appends the right part to the arena, and
rewires the neighbouring links. -/
def get_item_clean_start (w : World) (id : ID) : Option Ptr × World :=
  match w.blocks.findIdx? (fun b =>
      b.id.client == id.client && decide (b.id.clock ≤ id.clock)
        && decide (id.clock < b.id.clock + b.content_len)) with
  | none => (none, w)
  | some p =>
    match w.blocks[p]? with
    | none => (none, w)
    | some b =>
      let d := id.clock - b.id.clock
      if d == 0 then (some p, w)
      else
        let newPtr := w.blocks.length
        let parts := splitContent b.content d
        let leftPart := { b with content := parts.1, right := some newPtr }
        let rightPart := { b with id := ⟨b.id.client, b.id.clock + d⟩,
                                  content := parts.2, left := some p }
        let blocks := (w.blocks.set p leftPart) ++ [rightPart]
        let blocks :=
          match b.right with
          | some r =>
            match blocks[r]? with
            | some rb => blocks.set r { rb with left := some newPtr }
            | none => blocks
          | none => blocks
        (some newPtr, { w with blocks := blocks })

/-- Modelled from the spec: `txn.delete(block)` tombstones a whole block and
logs it for later propagation (§6); per §3/§8 the branch's derived live
length shrinks immediately by the tombstoned countable length. -/
def txnDelete (w : World) (p : Ptr) : World :=
  match w.blocks[p]? with
  | some b =>
    if b.deleted then w
    else
      { blocks := w.blocks.set p { b with deleted := true },
        branch := { w.branch with
          content_len := w.branch.content_len -
            (if b.is_countable then b.content_len else 0) } }
  | none => w

/-- The inner `while let Some(Block::Item(block)) = item.as_deref()` loop of
`delete` (lines 297-332).  Every field of the walked block is re-read
through its handle after a split, mirroring the source's in-place block
mutation seen through `BlockPtr`. -/
def deleteInner : Nat → World → BlockIter → Option Ptr → Nat →
    Outcome (World × BlockIter × Option Ptr × Nat)
  | 0, _, _, _, _ => .diverge
  | Nat.succ fuel, w, it, item, len =>
    match item with
    | none => .ok (w, it, item, len)
    | some p =>
      match w.blocks[p]? with
      | none => .ok (w, it, item, len)
      | some i =>
        if !i.is_deleted && i.is_countable && !it.reached_end && decide (0 < len)
            && (i.moved == it.curr_move) && (item != it.curr_move_end) then
          let res1 : Outcome (World × BlockIter × Ptr × Item) :=
            if decide (0 < it.rel) then
              let pr := get_item_clean_start w ⟨i.id.client, i.id.clock + it.rel⟩
              match pr.1 with
              | some p' =>
                match pr.2.blocks[p']? with
                | some i' => .ok (pr.2, { it with rel := 0 }, p', i')
                | none => .panic .defectDelete
              | none => .panic .defectDelete
            else .ok (w, it, p, i)
          match res1 with
          | .ok (w, it, p, i) =>
            let w :=
              if decide (len < i.content_len) then
                (get_item_clean_start w ⟨i.id.client, i.id.clock + len⟩).2
              else w
            match w.blocks[p]? with
            | none => .panic .defectDelete
            | some i =>
              let len := len - i.content_len
              let w := txnDelete w p
              match i.right with
              | some r => deleteInner fuel w it (some r) len
              | none => deleteInner fuel w { it with reached_end := true } (some p) len
          | .panic q => .panic q
          | .diverge => .diverge
        else .ok (w, it, item, len)

/-- The outer `while len > 0` loop of `delete` (lines 296-338). -/
def deleteOuter : Nat → World → BlockIter → Option Ptr → Nat →
    Outcome (World × BlockIter)
  | 0, _, _, _, _ => .diverge
  | Nat.succ fuel, w, it, item, len =>
    if decide (0 < len) then
      match deleteInner (Nat.succ fuel) w it item len with
      | .ok (w, it, item, len) =>
        if decide (0 < len) then
          let it := { it with next_item := item }
          match forward w (Nat.succ fuel) it 0 with
          | .ok it => deleteOuter fuel w it it.next_item len
          | .panic p => .panic p
          | .diverge => .diverge
        else deleteOuter fuel w it item len
      | .panic p => .panic p
      | .diverge => .diverge
    else .ok (w, { it with next_item := item })

/-- `BlockIter::delete` (lines 288-340). -/
def delete (w : World) (fuel : Nat) (it : BlockIter) (len : Nat) :
    Outcome (World × BlockIter) :=
  let item := it.next_item
  if decide (it.index + len > w.branch.content_len) then .panic .lengthExceeded
  else deleteOuter fuel w it item len

/-! ## Concrete chains used by witnesses and counterexamples -/

/-- A chain of one live two-unit block. -/
def wOne : World :=
  { blocks :=
      [ { id := ⟨1, 0⟩, left := none, right := none,
          content := .values [5, 6], deleted := false, moved := none } ],
    branch := { start := some 0, content_len := 2 } }

/-- A fresh cursor over `wOne`. -/
def sOne : BlockIter := BlockIter.new wOne

/-- An empty branch. -/
def wEmpty : World := { blocks := [], branch := { start := none, content_len := 0 } }

/-- A fresh cursor over `wEmpty`: `next_item` is absent from the start. -/
def sEmpty : BlockIter := BlockIter.new wEmpty

/-- Chain for the traversal counterexamples: a live ten-unit block followed
by a tombstoned two-unit block. -/
def wTrav : World :=
  { blocks :=
      [ { id := ⟨1, 0⟩, left := none, right := some 1,
          content := .values [0, 1, 2, 3, 4, 5, 6, 7, 8, 9], deleted := false, moved := none },
        { id := ⟨1, 10⟩, left := some 0, right := none,
          content := .values [10, 11], deleted := true, moved := none } ],
    branch := { start := some 0, content_len := 10 } }

/-- A cursor over `wTrav` positioned one unit into the tombstoned block. -/
def sTrav : BlockIter :=
  { index := 5, rel := 1, next_item := some 1, curr_move := none,
    curr_move_start := none, curr_move_end := none, moved_stack := [],
    reached_end := false }

/-- Chain for the slice counterexample: a live two-unit block (the branch
start) followed by a tombstoned two-unit block. -/
def wSl : World :=
  { blocks :=
      [ { id := ⟨1, 0⟩, left := none, right := some 1,
          content := .values [0, 1], deleted := false, moved := none },
        { id := ⟨1, 2⟩, left := some 0, right := none,
          content := .values [2, 3], deleted := true, moved := none } ],
    branch := { start := some 0, content_len := 2 } }

/-- A cursor over `wSl` one unit into the tombstoned block. -/
def sSl : BlockIter :=
  { index := 0, rel := 1, next_item := some 1, curr_move := none,
    curr_move_start := none, curr_move_end := none, moved_stack := [],
    reached_end := false }

/-- A cursor over `wOne` one unit before the end of the live content. -/
def sPen : BlockIter :=
  { index := 1, rel := 1, next_item := some 0, curr_move := none,
    curr_move_start := none, curr_move_end := none, moved_stack := [],
    reached_end := false }

/-- A chain of one live three-unit block. -/
def wDel : World :=
  { blocks :=
      [ { id := ⟨1, 0⟩, left := none, right := none,
          content := .values [1, 2, 3], deleted := false, moved := none } ],
    branch := { start := some 0, content_len := 3 } }

/-- A fresh cursor over `wDel`. -/
def sDel : BlockIter := BlockIter.new wDel

/-- A Move whose start position is right-biased (`assoc = false`) and whose
end position regards the saved boundary `some 2` as no longer within range;
it resolves to the boundaries `(some 5, some 6)`. -/
def mPop : Move :=
  { start := { assoc := false, resolved := some 5, stale := [] },
    end_ := { assoc := false, resolved := some 6, stale := [some 2] },
    priority := 0 }

/-- A store holding the single Move item carrying `mPop`. -/
def wPop : World :=
  { blocks :=
      [ { id := ⟨1, 0⟩, left := none, right := none,
          content := .move mPop, deleted := false, moved := none } ],
    branch := { start := some 0, content_len := 0 } }

/-- A cursor whose moved stack holds one suspended context with saved
boundaries `(some 1, some 2)` owned by the Move item of `wPop`. -/
def sPop : BlockIter :=
  { index := 0, rel := 0, next_item := none, curr_move := some 9,
    curr_move_start := some 7, curr_move_end := some 8,
    moved_stack := [⟨some 1, some 2, 0⟩], reached_end := true }

/-! ## Panic classification of the traversal loops -/

/-- The `forward` loop itself can only fail with the "unexpected case during
block iter forward" defect. -/
theorem forwardLoop_panic (w : World) :
    ∀ fuel it item len q, forwardLoop w fuel it item len = .panic q → q = .defectForward := by
  intro fuel
  induction fuel with
  | zero => intro it item len q h; simp [forwardLoop] at h
  | succ n ih =>
    intro it item len q h
    simp only [forwardLoop] at h
    repeat' split at h
    all_goals first
      | exact ih _ _ _ _ h
      | (cases h; rfl)
      | cases h

/-- `forward` can fail only with its entry defect, the loop defect, or the
underflow of the final unguarded subtraction — never with the plain
"Length exceeded" of `backward`/`delete`/`slice`. -/
theorem forward_panic (w : World) (fuel : Nat) (it : BlockIter) (len : Nat) (q : Panic)
    (h : forward w fuel it len = .panic q) :
    q = .defectLengthExceeded ∨ q = .defectForward ∨ q = .subUnderflow := by
  simp only [forward] at h
  split at h
  · cases h
  · split at h
    · cases h; simp
    · split at h
      · split at h
        · cases h
        · cases h; simp
      · rename_i p hp
        cases h
        exact Or.inr (Or.inl (forwardLoop_panic w _ _ _ _ _ hp))
      · cases h

/-- The inner slice loop never fails. -/
theorem sliceInner_no_panic (w : World) :
    ∀ fuel it ni len value q, sliceInner w fuel it ni len value ≠ .panic q := by
  intro fuel
  induction fuel with
  | zero => intro it ni len value q h; simp [sliceInner] at h
  | succ n ih =>
    intro it ni len value q h
    simp only [sliceInner] at h
    repeat' split at h
    all_goals first
      | exact ih _ _ _ _ _ h
      | cases h

/-- The outer slice loop never fails with "Length exceeded": its only own
defect is the missing-next-item one, and the `forward` calls it makes cannot
produce "Length exceeded" either. -/
theorem sliceOuter_ne_lengthExceeded (w : World) :
    ∀ fuel it ni len value, sliceOuter w fuel it ni len value ≠ .panic .lengthExceeded := by
  intro fuel
  induction fuel with
  | zero => intro it ni len value h; simp [sliceOuter] at h
  | succ n ih =>
    intro it ni len value h
    simp only [sliceOuter] at h
    split at h
    · split at h
      · split at h
        · split at h
          · split at h
            · cases h
            · exact ih _ _ _ _ h
          · rename_i p hfw
            cases h
            rcases forward_panic w _ _ _ _ hfw with h' | h' | h' <;> cases h'
          · cases h
        · exact ih _ _ _ _ h
      · rename_i p hin
        cases h
        exact sliceInner_no_panic w _ _ _ _ _ _ hin
      · cases h
    · cases h

/-! ## Field-preservation lemmas for the traversal loops -/

/-- `pop` never touches the logical index or the intra-block offset. -/
theorem pop_index_rel (it : BlockIter) (w : World) :
    (it.pop w).index = it.index ∧ (it.pop w).rel = it.rel := by
  unfold BlockIter.pop
  split <;> simp

/-- The fall-through tail of the forward loop either keeps the state or only
sets `reached_end`, and either keeps the scanned handle or steps to an
existing right link. -/
theorem forwardFallthrough_cases (it : BlockIter) (i : Item) (item : Option Ptr)
    (pr : BlockIter × Option Ptr) (h : forwardFallthrough it i item = some pr) :
    (pr.1 = it ∨ pr.1 = { it with reached_end := true }) ∧
      (pr.2 = item ∨ ∃ r, i.right = some r ∧ pr.2 = some r) := by
  unfold forwardFallthrough at h
  split at h
  · cases h
  · split at h
    · rename_i r hr
      injection h with h
      subst h
      exact ⟨Or.inl rfl, Or.inr ⟨r, hr, rfl⟩⟩
    · injection h with h
      subst h
      exact ⟨Or.inr rfl, Or.inl rfl⟩

/-- A zero-length forward walk performs only structural steps: it consumes
nothing and leaves both the index and the intra-block offset unchanged. -/
theorem forwardLoop_zero (w : World) :
    ∀ fuel it item it' item' len', forwardLoop w fuel it item 0 = .ok (it', item', len') →
      len' = 0 ∧ it'.index = it.index ∧ it'.rel = it.rel := by
  intro fuel
  induction fuel with
  | zero => intro it item it' item' len' h; simp [forwardLoop] at h
  | succ n ih =>
    intro it item it' item' len' h
    simp only [forwardLoop] at h
    split at h
    · split at h
      · have hp := ih _ _ _ _ _ h
        exact ⟨hp.1, by rw [hp.2.1, (pop_index_rel it w).1],
               by rw [hp.2.2, (pop_index_rel it w).2]⟩
      · split at h
        · cases h
        · split at h
          · exact ih _ _ _ _ _ h
          · split at h
            · rename_i hcond
              simp at hcond
            · split at h
              · split at h
                · rename_i hmv
                  have hp := ih _ _ _ _ _ h
                  refine ⟨hp.1, ?_, ?_⟩
                  · rw [hp.2.1]; cases it.curr_move <;> simp
                  · rw [hp.2.2]; cases it.curr_move <;> simp
                · split at h
                  · cases h
                  · rename_i it2 pr hft
                    have hc := (forwardFallthrough_cases _ _ _ _ hft).1
                    have hp := ih _ _ _ _ _ h
                    rcases hc with he | he
                    · have he' : it2 = it := he
                      exact ⟨hp.1, by rw [hp.2.1, he'], by rw [hp.2.2, he']⟩
                    · have he' : it2 = { it with reached_end := true } := he
                      exact ⟨hp.1, by rw [hp.2.1, he'], by rw [hp.2.2, he']⟩
              · split at h
                · cases h
                · rename_i it2 pr hft
                  have hc := (forwardFallthrough_cases _ _ _ _ hft).1
                  have hp := ih _ _ _ _ _ h
                  rcases hc with he | he
                  · have he' : it2 = it := he
                    exact ⟨hp.1, by rw [hp.2.1, he'], by rw [hp.2.2, he']⟩
                  · have he' : it2 = { it with reached_end := true } := he
                    exact ⟨hp.1, by rw [hp.2.1, he'], by rw [hp.2.2, he']⟩
    · injection h with h
      simp only [Prod.mk.injEq] at h
      obtain ⟨h1, h2, h3⟩ := h
      exact ⟨h3.symm, by rw [← h1], by rw [← h1]⟩

/-- A zero-length `forward` call made with a clear intra-block offset
returns with the index and the offset unchanged. -/
theorem forward_zero (w : World) (fuel : Nat) (it : BlockIter) (it' : BlockIter)
    (hrel : it.rel = 0) (h : forward w fuel it 0 = .ok it') :
    it'.index = it.index ∧ it'.rel = 0 := by
  simp only [forward] at h
  split at h
  · injection h with h
    subst h
    exact ⟨rfl, hrel⟩
  · split at h
    · cases h
    · split at h
      · rename_i it2 item2 len2 heq
        simp [hrel] at heq
        have hp := forwardLoop_zero w _ _ _ _ _ _ heq
        split at h
        · injection h with h
          subst h
          refine ⟨?_, ?_⟩ <;> simp [hp.1, hp.2.1, hp.2.2, hrel]
        · cases h
      · cases h
      · cases h

/-- A countable block of the model carries a run of values. -/
theorem countable_values (w : World) (p : Ptr) (i : Item) (hg : w.get p = some i)
    (hc : ptrIsCountable w p = true) : ∃ vs, i.content = .values vs := by
  unfold ptrIsCountable at hc
  rw [hg] at hc
  have hc2 : i.content.is_countable = true := hc
  cases hcc : i.content with
  | values vs => exact ⟨vs, rfl⟩
  | move m => rw [hcc] at hc2; simp [ItemContent.is_countable] at hc2
  | format => rw [hcc] at hc2; simp [ItemContent.is_countable] at hc2

/-- The inner slice loop maintains "clear offset or nothing left to
extract" and never moves the logical index: starting with `rel = 0` (or a
zero request), it finishes with `rel = 0` or its residual length zero, and
the index is untouched. -/
theorem sliceInner_inv (w : World) :
    ∀ fuel it ni len value it₂ ni₂ len₂ val₂,
      (it.rel = 0 ∨ len = 0) →
      sliceInner w fuel it ni len value = .ok (it₂, ni₂, len₂, val₂) →
      it₂.index = it.index ∧ (it₂.rel = 0 ∨ len₂ = 0) := by
  intro fuel
  induction fuel with
  | zero => intro it ni len value it₂ ni₂ len₂ val₂ hinv h; simp [sliceInner] at h
  | succ n ih =>
    intro it ni len value it₂ ni₂ len₂ val₂ hinv h
    simp only [sliceInner] at h
    split at h
    · injection h with h
      simp only [Prod.mk.injEq] at h
      obtain ⟨h1, h2, h3, h4⟩ := h
      exact ⟨by rw [← h1], by rw [← h1, ← h3]; exact hinv⟩
    · rename_i p
      split at h
      · rename_i hcond
        split at h
        · injection h with h
          simp only [Prod.mk.injEq] at h
          obtain ⟨h1, h2, h3, h4⟩ := h
          exact ⟨by rw [← h1], by rw [← h1, ← h3]; exact hinv⟩
        · rename_i item0 hget0
          split at h
          · split at h
            · split at h
              · have hp := ih _ _ _ _ _ _ _ _ (Or.inl rfl) h
                exact ⟨by rw [hp.1], hp.2⟩
              · have hp := ih _ _ _ _ _ _ _ _ (Or.inl rfl) h
                exact ⟨by rw [hp.1], hp.2⟩
            · rename_i hfull
              have hrel : it.rel = 0 := by
                rcases hinv with h' | h'
                · exact h'
                · subst h'
                  simp at hcond
              have hcnt : ptrIsCountable w p = true := by
                have := hcond
                simp only [Bool.and_eq_true] at this
                exact this.1.1.2
              obtain ⟨vs, hvs⟩ := countable_values w p item0 hget0 hcnt
              have hlen0 : (sliceContent item0.content it.rel len).length = len := by
                simp only [hvs, sliceContent, hrel, List.drop_zero, List.length_take]
                simp only [hvs, sliceContent, hrel, Item.content_len, ItemContent.len,
                  List.drop_zero, List.length_take, beq_iff_eq, Nat.zero_add] at hfull
                omega
              have hp := ih _ _ _ _ _ _ _ _ (Or.inr (by rw [hlen0]; omega)) h
              exact ⟨by rw [hp.1], hp.2⟩
          · split at h
            · have hp := ih _ _ _ _ _ _ _ _ (by exact hinv) h
              exact ⟨by rw [hp.1], hp.2⟩
            · have hp := ih _ _ _ _ _ _ _ _ (by exact hinv) h
              exact ⟨by rw [hp.1], hp.2⟩
      · injection h with h
        simp only [Prod.mk.injEq] at h
        obtain ⟨h1, h2, h3, h4⟩ := h
        exact ⟨by rw [← h1], by rw [← h1, ← h3]; exact hinv⟩

/-- The outer slice loop never moves the logical index when it starts with a
clear intra-block offset: all index bookkeeping of `slice` happens in its
prologue. -/
theorem sliceOuter_index (w : World) :
    ∀ fuel it ni len value it₂ ni₂ len₂ val₂,
      (it.rel = 0 ∨ len = 0) →
      sliceOuter w fuel it ni len value = .ok (it₂, ni₂, len₂, val₂) →
      it₂.index = it.index := by
  intro fuel
  induction fuel with
  | zero => intro it ni len value it₂ ni₂ len₂ val₂ hinv h; simp [sliceOuter] at h
  | succ n ih =>
    intro it ni len value it₂ ni₂ len₂ val₂ hinv h
    simp only [sliceOuter] at h
    split at h
    · split at h
      · rename_i it₁ ni₁ len₁ val₁ heqin
        have hin := sliceInner_inv w _ _ _ _ _ _ _ _ _ hinv heqin
        split at h
        · rename_i hguard
          split at h
          · rename_i it₃ heqf
            have hrel₁ : it₁.rel = 0 := by
              rcases hin.2 with h' | h'
              · exact h'
              · subst h'
                simp at hguard
            have hf := forward_zero w _ _ _ (by simpa using hrel₁) heqf
            split at h
            · cases h
            · have hp := ih _ _ _ _ _ _ _ _ (Or.inl hf.2) h
              rw [hp, hf.1]
              simpa using hin.1
          · cases h
          · cases h
        · have hp := ih _ _ _ _ _ _ _ _ hin.2 h
          rw [hp, hin.1]
      · cases h
      · cases h
    · injection h with h
      simp only [Prod.mk.injEq] at h
      exact h.1 ▸ rfl

/-- Claim C10: calling `next()` on the `Iterator` implementation of
`BlockIter` itself (as opposed to the `Values` wrapper) unconditionally
fails for every cursor state: the implementation is the `todo!()` stub, so
this entry point is never usable. -/
theorem c10_iterator_next_stub (it : BlockIter) :
    iterNext it = .panic .todoUnimplemented := rfl

/-- Claim C5: `delete(len)` fails fatally with "Length exceeded" whenever
`index + len` exceeds the branch's live content length; consequently
repeating `delete(len)` over a range whose content was already tombstoned by
the first call — so the live length no longer covers it — is a fatal defect
rather than a silent no-op. -/
theorem c5_delete_length_exceeded (w : World) (fuel : Nat) (it : BlockIter) (len : Nat)
    (h : it.index + len > w.branch.content_len) :
    delete w fuel it len = .panic .lengthExceeded := by
  simp [delete, h]

/-- The store after `delete wDel 20 sDel 3`: the single block tombstoned,
live length zero. -/
def wDel1 : World :=
  { blocks :=
      [ { id := ⟨1, 0⟩, left := none, right := none,
          content := .values [1, 2, 3], deleted := true, moved := none } ],
    branch := { start := some 0, content_len := 0 } }

/-- The cursor after `delete wDel 20 sDel 3`: still at index 0. -/
def sDel1 : BlockIter :=
  { index := 0, rel := 0, next_item := some 0, curr_move := none,
    curr_move_start := none, curr_move_end := none, moved_stack := [],
    reached_end := true }

/-- Witness for C5: deleting all three units of `wDel` succeeds and leaves a
live length of zero, after which deleting the same range again fails
fatally, by `c5_delete_length_exceeded`. -/
theorem c5_witness :
    delete wDel 20 sDel 3 = .ok (wDel1, sDel1) ∧
      sDel1.index + 3 > wDel1.branch.content_len ∧
      delete wDel1 20 sDel1 3 = .panic .lengthExceeded :=
  ⟨by decide, by decide, c5_delete_length_exceeded wDel1 20 sDel1 3 (by decide)⟩

/-- Counterexample to C6 as stated: the Move's start bias is right-biased
(`assoc = false`), so the claim predicts the saved boundaries
`(some 1, some 2)` are reused unchanged, yet `pop` recomputes them to the
freshly resolved `(some 5, some 6)` because the saved end boundary is no
longer within range: the source's condition is a disjunction whose
end-boundary test fires independently of the start bias. -/
theorem c6_cex :
    mPop.start.assoc = false ∧
      sPop.moved_stack = [⟨some 1, some 2, 0⟩] ∧
      (sPop.pop wPop).curr_move_start = some 5 ∧
      (sPop.pop wPop).curr_move_end = some 6 ∧
      (some 5 : Option Ptr) ≠ some 1 ∧ (some 6 : Option Ptr) ≠ some 2 := by
  decide

/-- Claim C6 (amended): when `pop` restores an enclosing context owned by a
Move item, the saved boundaries are recomputed via `get_moved_coords`
exactly when (the move start's bias is left-biased and the saved start
boundary is no longer within range) or the saved end boundary is no longer
within range; in every other case the saved boundaries are reused
unchanged.  The restored owner and the remaining stack are installed either
way. -/
theorem c6_pop_boundary_recompute (w : World) (it : BlockIter) (si : StackItem)
    (rest : List StackItem) (mi : Item) (m : Move)
    (hst : it.moved_stack = si :: rest) (hmi : w.get si.moved_to = some mi)
    (hc : mi.content = .move m) :
    ((((m.start.assoc && m.start.within_range si.start) || m.end_.within_range si.end_) = true →
        (it.pop w).curr_move_start = m.get_moved_coords.1 ∧
          (it.pop w).curr_move_end = m.get_moved_coords.2) ∧
      (((m.start.assoc && m.start.within_range si.start) || m.end_.within_range si.end_) = false →
        (it.pop w).curr_move_start = si.start ∧ (it.pop w).curr_move_end = si.end_)) ∧
      (it.pop w).curr_move = some si.moved_to ∧ (it.pop w).moved_stack = rest := by
  refine ⟨⟨fun hcond => ?_, fun hcond => ?_⟩, ?_, ?_⟩
  · simp [BlockIter.pop, hst, hmi, hc, hcond]
  · simp [BlockIter.pop, hst, hmi, hc, hcond]
  · simp [BlockIter.pop, hst]
  · simp [BlockIter.pop, hst]

/-- Witness for C6 (amended): at the concrete stack frame of `sPop` over
`wPop` the recompute condition holds, and `pop` indeed installs the freshly
resolved boundaries. -/
theorem c6_witness :
    (sPop.pop wPop).curr_move_start = mPop.get_moved_coords.1 ∧
      (sPop.pop wPop).curr_move_end = mPop.get_moved_coords.2 :=
  (c6_pop_boundary_recompute wPop sPop ⟨some 1, some 2, 0⟩ [] _ mPop rfl rfl rfl).1.1
    (by decide)

/-- Counterexample to C7 as stated: a cursor one unit before the end of the
live content is in the "otherwise" case of the claim (not at the end, walk
not finished), yet the pull does not obtain a logical unit — the one-unit
`slice` call fails fatally because its post-increment index exactly equals
the branch's full length. -/
theorem c7_cex :
    sPen.reached_end = false ∧ sPen.index ≠ wOne.branch.content_len ∧
      valuesNext wOne 20 sPen = .panic .lengthExceeded := by
  decide

/-- Claim C7 (amended): a pull on the `Values` sequence returns no value
when, at the start of the pull, the cursor's `reached_end` flag is set or
its index equals the branch's `content_len`; otherwise it performs a
one-unit `slice` call, which fails fatally when the cursor sits exactly
one unit before the branch's full length, and whose normal completion does
not guarantee a unit is obtained: at `sSl` — a pending intra-block offset
on a tombstoned block — neither termination condition holds, yet the pull
completes normally having extracted nothing, returning no value. -/
theorem c7_values_next (w : World) (fuel : Nat) (it : BlockIter) :
    (it.reached_end = true ∨ it.index = w.branch.content_len →
        valuesNext w fuel it = .ok (none, it)) ∧
      (¬(it.reached_end = true ∨ it.index = w.branch.content_len) →
        it.index + 1 = w.branch.content_len →
        valuesNext w fuel it = .panic .lengthExceeded) ∧
      (¬(sSl.reached_end = true ∨ sSl.index = wSl.branch.content_len) ∧
        valuesNext wSl 20 sSl =
          .ok (none, ⟨0, 0, some 1, none, none, none, [], true⟩)) := by
  refine ⟨?_, ?_, by decide⟩
  · intro h
    rcases h with h | h <;> simp [valuesNext, h]
  · intro h h1
    push_neg at h
    obtain ⟨hr, hi⟩ := h
    have hr' : it.reached_end = false := by
      cases hre : it.reached_end
      · rfl
      · exact absurd hre hr
    simp [valuesNext, hr', hi, slice, h1]

/-- Witness for C7 (amended): a finished cursor pulls `none`, and the
cursor one unit before the end fails fatally, both by `c7_values_next`. -/
theorem c7_witness :
    valuesNext wEmpty 5 sEmpty = .ok (none, sEmpty) ∧
      valuesNext wOne 20 sPen = .panic .lengthExceeded :=
  ⟨(c7_values_next wEmpty 5 sEmpty).1 (Or.inl rfl),
   (c7_values_next wOne 20 sPen).2.1 (by decide) (by decide)⟩

/-- Counterexample to C4 as stated: with `len = 0` and `next_item` absent,
`forward` returns normally without any change instead of failing fatally —
the claim's "including zero" case is exactly the source's early return. -/
theorem c4_cex :
    sEmpty.next_item = none ∧ forward wEmpty 5 sEmpty 0 = .ok sEmpty := by
  decide

/-- Claim C4 (amended): `forward(len)` fails fatally at entry with
"Defect: length exceeded" exactly when (`index + len` exceeds the branch's
live content length, or `next_item` is absent) and it is not the case that
`len = 0` with `next_item` absent — that last case returns normally with no
change.  Passing the entry checks does not by itself guarantee the rest of
the walk completes normally. -/
theorem c4_forward_entry_iff (w : World) (fuel : Nat) (it : BlockIter) (len : Nat) :
    forward w fuel it len = .panic .defectLengthExceeded ↔
      ¬(len = 0 ∧ it.next_item = none) ∧
        (it.index + len > w.branch.content_len ∨ it.next_item = none) := by
  constructor
  · intro h
    simp only [forward] at h
    split at h
    · cases h
    · split at h
      · rename_i h1 h2
        simp only [Bool.and_eq_true, beq_iff_eq, Option.isNone_iff_eq_none, not_and] at h1
        simp only [Bool.or_eq_true, decide_eq_true_eq, Option.isNone_iff_eq_none] at h2
        exact ⟨fun hp => h1 hp.1 hp.2, h2⟩
      · split at h
        · split at h
          · cases h
          · simp at h
        · rename_i p hp
          cases h
          have := forwardLoop_panic w _ _ _ _ _ hp
          cases this
        · cases h
  · intro h
    obtain ⟨h1, h2⟩ := h
    have hc1 : ¬((len == 0 && it.next_item.isNone) = true) := by
      simp only [Bool.and_eq_true, beq_iff_eq, Option.isNone_iff_eq_none]
      exact fun hp => h1 hp
    have hc2 : (decide (it.index + len > w.branch.content_len) || it.next_item.isNone) = true := by
      rcases h2 with h | h <;> simp [h]
    simp [forward, hc1, hc2]

/-- `pop` always restores the stack discipline: it leaves no active move
only when the stack it popped from was empty. -/
theorem pop_inv (it : BlockIter) (w : World) :
    (it.pop w).curr_move = none → (it.pop w).moved_stack = [] := by
  unfold BlockIter.pop
  split
  · rename_i hnil
    intro _
    simpa using hnil
  · intro hc
    simp at hc

/-- The tail of the backward loop body preserves the stack discipline. -/
theorem backwardFallthrough_inv (it : BlockIter) (w : World) (item : Option Ptr)
    (hinv : it.curr_move = none → it.moved_stack = []) :
    (backwardFallthrough it w item).1.curr_move = none →
      (backwardFallthrough it w item).1.moved_stack = [] := by
  simp only [backwardFallthrough]
  split
  · exact pop_inv it w
  · exact hinv

/-- The forward loop preserves the stack discipline "no active move implies
an empty moved stack": every push performed while entering a nested move is
matched by the pop that exits it before the walk is again outside every
move. -/
theorem forwardLoop_stack_inv (w : World) :
    ∀ fuel it item len it' item' len',
      (it.curr_move = none → it.moved_stack = []) →
      forwardLoop w fuel it item len = .ok (it', item', len') →
      (it'.curr_move = none → it'.moved_stack = []) := by
  intro fuel
  induction fuel with
  | zero => intro it item len it' item' len' hinv h; simp [forwardLoop] at h
  | succ n ih =>
    intro it item len it' item' len' hinv h
    simp only [forwardLoop] at h
    split at h
    · split at h
      · exact ih _ _ _ _ _ _ (pop_inv it w) h
      · split at h
        · cases h
        · split at h
          · exact ih _ _ _ _ _ _ hinv h
          · split at h
            · split at h
              · injection h with h
                simp only [Prod.mk.injEq] at h
                obtain ⟨h1, h2, h3⟩ := h
                rw [← h1]
                exact hinv
              · split at h
                · cases h
                · rename_i it2 pr hft
                  have hc := (forwardFallthrough_cases _ _ _ _ hft).1
                  refine ih _ _ _ _ _ _ ?_ h
                  rcases hc with he | he
                  · have he' : it2 = it := he
                    rw [he']; exact hinv
                  · have he' : it2 = { it with reached_end := true } := he
                    rw [he']; simpa using hinv
            · split at h
              · split at h
                · refine ih _ _ _ _ _ _ ?_ h
                  intro hc
                  simp at hc
                · split at h
                  · cases h
                  · rename_i it2 pr hft
                    have hc := (forwardFallthrough_cases _ _ _ _ hft).1
                    refine ih _ _ _ _ _ _ ?_ h
                    rcases hc with he | he
                    · have he' : it2 = it := he
                      rw [he']; exact hinv
                    · have he' : it2 = { it with reached_end := true } := he
                      rw [he']; simpa using hinv
              · split at h
                · cases h
                · rename_i it2 pr hft
                  have hc := (forwardFallthrough_cases _ _ _ _ hft).1
                  refine ih _ _ _ _ _ _ ?_ h
                  rcases hc with he | he
                  · have he' : it2 = it := he
                    rw [he']; exact hinv
                  · have he' : it2 = { it with reached_end := true } := he
                    rw [he']; simpa using hinv
    · injection h with h
      simp only [Prod.mk.injEq] at h
      obtain ⟨h1, h2, h3⟩ := h
      rw [← h1]
      exact hinv

/-- The backward loop preserves the stack discipline. -/
theorem backwardLoop_stack_inv (w : World) :
    ∀ fuel it item len it' item',
      (it.curr_move = none → it.moved_stack = []) →
      backwardLoop w fuel it item len = .ok (it', item') →
      (it'.curr_move = none → it'.moved_stack = []) := by
  intro fuel
  induction fuel with
  | zero => intro it item len it' item' hinv h; simp [backwardLoop] at h
  | succ n ih =>
    intro it item len it' item' hinv h
    simp only [backwardLoop] at h
    repeat' split at h
    all_goals
      first
        | exact ih _ _ _ _ _ (by exact hinv) h
        | exact ih _ _ _ _ _ (backwardFallthrough_inv _ w _ (by exact hinv)) h
        | exact ih _ _ _ _ _ (by intro hc; simp at hc) h
        | (cases h; exact hinv)

/-- `forward` preserves the stack discipline. -/
theorem forward_stack_inv (w : World) (fuel : Nat) (it : BlockIter) (len : Nat)
    (it' : BlockIter) (hinv : it.curr_move = none → it.moved_stack = [])
    (h : forward w fuel it len = .ok it') :
    it'.curr_move = none → it'.moved_stack = [] := by
  simp only [forward] at h
  split at h
  · injection h with h
    rw [← h]
    exact hinv
  · split at h
    · cases h
    · split at h
      · rename_i it2 item2 len2 heq
        have hp := forwardLoop_stack_inv w _ _ _ _ _ _ _ (by split <;> exact hinv) heq
        split at h
        · injection h with h
          rw [← h]
          exact hp
        · cases h
      · cases h
      · cases h

/-- `backward` preserves the stack discipline. -/
theorem backward_stack_inv (w : World) (fuel : Nat) (it : BlockIter) (len : Nat)
    (it' : BlockIter) (hinv : it.curr_move = none → it.moved_stack = [])
    (h : backward w fuel it len = .ok it') :
    it'.curr_move = none → it'.moved_stack = [] := by
  simp only [backward] at h
  split at h
  · cases h
  · cases hgo : w.getOpt it.next_item with
    | none =>
      simp only [hgo] at h
      repeat' split at h
      all_goals first | (cases h; exact hinv) | cases h
      all_goals
        (rename_i heq
         have hl := backwardLoop_stack_inv w _ _ _ _ _ _ (by exact hinv) heq
         intro hcm2
         exact hl hcm2)
    | some ni =>
      simp only [hgo] at h
      repeat' split at h
      all_goals first | (cases h; exact hinv) | cases h
      all_goals
        (rename_i heq
         have hl := backwardLoop_stack_inv w _ _ _ _ _ _ (by exact hinv) heq
         intro hcm2
         exact hl hcm2)

/-- Claim C3: for a forward or backward call that begins outside any move
context with a balanced (empty) moved stack and returns normally, if the
walk's traversed moves were all fully entered and exited (the call ends
outside any move context again), the length of the moved stack equals its
length before the call: each push of a suspended move context is matched by
exactly one pop. -/
theorem c3_moved_stack_balanced (w : World) (fuel : Nat) (it : BlockIter) (len : Nat)
    (_hcm : it.curr_move = none) (hst : it.moved_stack = []) :
    (∀ it', forward w fuel it len = .ok it' → it'.curr_move = none →
        it'.moved_stack.length = it.moved_stack.length) ∧
      (∀ it', backward w fuel it len = .ok it' → it'.curr_move = none →
        it'.moved_stack.length = it.moved_stack.length) := by
  constructor <;> intro it' h hcm'
  · rw [forward_stack_inv w fuel it len it' (fun _ => hst) h hcm', hst]
  · rw [backward_stack_inv w fuel it len it' (fun _ => hst) h hcm', hst]

/-- Witness for C3: a one-unit forward walk over `wOne` starts and ends
outside any move with the stack length preserved, by
`c3_moved_stack_balanced`. -/
theorem c3_witness :
    forward wOne 20 sOne 1 = .ok ⟨1, 1, some 0, none, none, none, [], false⟩ ∧
      (⟨1, 1, some 0, none, none, none, [], false⟩ : BlockIter).moved_stack.length =
        sOne.moved_stack.length :=
  ⟨by decide, (c3_moved_stack_balanced wOne 20 sOne 1 rfl rfl).1 _ (by decide) rfl⟩

/-- Counterexample to C2 as stated: over a chain with no Move items at all
(so the walk neither enters nor exits a move range) and an empty moved
stack, `forward(1)` followed by `backward(1)` does not restore `index`,
`next_item` and `rel`: the forward call, starting one unit inside a
tombstoned tail block, hands back its unconsumed residue at the chain end
and the backward call then walks left from there. -/
theorem c2_cex :
    sTrav.moved_stack = [] ∧
      forward wTrav 20 sTrav 1 = .ok ⟨4, 0, some 1, none, none, none, [], true⟩ ∧
      backward wTrav 20 ⟨4, 0, some 1, none, none, none, [], true⟩ 1 =
        .ok ⟨3, 9, some 0, none, none, none, [], true⟩ ∧
      ¬((3 : Nat) = sTrav.index ∧ (some 0 : Option Ptr) = sTrav.next_item ∧
          (9 : Nat) = sTrav.rel) := by
  decide

/-- Claim C2 (amended): for every cursor state whose moved stack is empty,
positioned on a live, countable, in-context block distinct from the current
move end with the walk not at its end, and every length `k` that stays
strictly inside that block (`rel + k < content_len` of the block) and within
the branch length, `forward(k)` followed by `backward(k)` restores the whole
cursor state — in particular `index`, `next_item`, `rel`, and the empty
moved stack. -/
theorem c2_forward_backward_roundtrip (w : World) (fuel fuel' : Nat) (it : BlockIter)
    (k : Nat) (p : Ptr) (i : Item)
    (hre : it.reached_end = false)
    (hni : it.next_item = some p)
    (hg : w.get p = some i)
    (hcnt : i.is_countable = true)
    (hdel : i.is_deleted = false)
    (hmv : i.moved = it.curr_move)
    (hcme : (some p : Option Ptr) ≠ it.curr_move_end)
    (hlen : it.rel + k < i.content_len)
    (hcl : it.index + k ≤ w.branch.content_len)
    (_hst : it.moved_stack = []) :
    ∃ it₁, forward w (fuel + 1) it k = .ok it₁ ∧ backward w fuel' it₁ k = .ok it := by
  have hniNone : it.next_item.isNone = false := by rw [hni]; rfl
  have hgo : w.getOpt (some p) = some i := by simp [World.getOpt, hg]
  have hclF : ¬it.index + k > w.branch.content_len := by omega
  have hclF2 : ¬w.branch.content_len < it.index + k := by omega
  have hclF3 : ¬w.branch.content_len < it.index := by omega
  have hpq : ((some p : Option Ptr) == it.curr_move_end) = false :=
    beq_eq_false_iff_ne.mpr hcme
  have hmvb : (i.moved != it.curr_move) = false := by
    simp [bne, hmv]
  have hmvq : (i.moved == it.curr_move) = true := by
    simp [hmv]
  by_cases hr : it.rel = 0
  · by_cases hk : k = 0
    · -- pure no-op in both directions
      subst hk
      refine ⟨_, by simp [forward, forwardLoop, BlockIter.can_forward, hni, hniNone, hgo,
        hclF, hclF2, hclF3, hpq, hmvb, hre, hcnt, hdel, hr]; rfl, ?_⟩
      · have hb1 : ¬it.index < 0 := by omega
        simp [backward, hre, hb1, hr]
        ext <;> simp [hni, hre, hr]
    · -- consume inside the block, offset starts clear
      have hkpos : 0 < k := Nat.pos_of_ne_zero hk
      have hlt2 : i.content_len > k := by omega
      refine ⟨_, by simp [forward, forwardLoop, BlockIter.can_forward, hni, hniNone, hgo,
        hg, hclF, hclF2, hclF3, hpq, hmvb, hmvq, hre, hcnt, hdel, hr, hk, hkpos, hlt2]; rfl, ?_⟩
      · have hb1 : ¬it.index + k < k := by omega
        have hb2 : k ≥ k := Nat.le_refl k
        simp [backward, hre, hb1, hb2]
        ext <;> simp [hni, hre, hr]
  · -- a pending offset is folded into the walk and written back
    have hkr : 0 < k + it.rel := by omega
    have hlt2 : i.content_len > k + it.rel := by omega
    refine ⟨_, by simp [forward, forwardLoop, BlockIter.can_forward, hni, hniNone, hgo,
      hg, hclF, hclF2, hclF3, hpq, hmvb, hmvq, hre, hcnt, hdel, hr, hkr, hlt2]; rfl, ?_⟩
    · have hb1 : ¬it.index + k < k := by omega
      have hb2 : k + it.rel ≥ k := by omega
      simp [backward, hre, hb1, hb2]
      ext <;> simp [hni, hre]

/-- Witness for C2 (amended): from a fresh cursor over a two-unit block,
`forward(1)` then `backward(1)` restores the state, by
`c2_forward_backward_roundtrip`. -/
theorem c2_witness :
    ∃ it₁, forward wOne 20 sOne 1 = .ok it₁ ∧ backward wOne 20 it₁ 1 = .ok sOne :=
  c2_forward_backward_roundtrip wOne 19 20 sOne 1 0
    { id := ⟨1, 0⟩, left := none, right := none,
      content := .values [5, 6], deleted := false, moved := none }
    rfl rfl rfl rfl rfl rfl (by decide) (by decide) (by decide) rfl

/-- Counterexample to C9 as stated: starting one unit inside a tombstoned
tail block, `slice(1)` extracts nothing, returns normally, and leaves the
cursor's index unchanged — the requested length was advanced at entry but
the zero-length `forward` fallback that crossed the tombstone gave back its
unconsumed residue, so the index did not increase by the requested length. -/
theorem c9_cex :
    slice wSl 20 sSl 1 [] = .ok (⟨0, 0, some 1, none, none, none, [], true⟩, []) ∧
      (⟨0, 0, some 1, none, none, none, [], true⟩ : BlockIter).index ≠ sSl.index + 1 := by
  decide

/-- Claim C9 (amended): whenever `slice` is called with a clear intra-block
offset (`rel = 0`) and returns normally, the cursor's index has increased by
exactly the requested length, even when fewer content units than requested
were actually extracted; the compensation branch that would subtract the
shortfall is guarded by a comparison (`len < 0`) on an unsigned length and
can never execute. -/
theorem c9_slice_index_advance (w : World) (fuel : Nat) (it : BlockIter) (len : Nat)
    (value : List Nat) (it' : BlockIter) (value' : List Nat)
    (hrel : it.rel = 0) (h : slice w fuel it len value = .ok (it', value')) :
    it'.index = it.index + len := by
  simp only [slice] at h
  split at h
  · cases h
  · split at h
    · rename_i it₂ ni₂ len₂ val₂ heq
      have hidx := sliceOuter_index w _ _ _ _ _ _ _ _ _ (by exact Or.inl hrel) heq
      have hlt : ¬len₂ < 0 := Nat.not_lt_zero len₂
      rw [if_neg (by simp)] at h
      injection h with h
      simp only [Prod.mk.injEq] at h
      rw [← h.1]
      simpa using hidx
    · cases h
    · cases h

/-- Witness for C9 (amended): a one-unit slice from a fresh cursor over a
two-unit block advances the index from 0 to 1, by
`c9_slice_index_advance`. -/
theorem c9_witness :
    slice wOne 20 sOne 1 [] = .ok (⟨1, 1, some 0, none, none, none, [], false⟩, [5]) ∧
      (⟨1, 1, some 0, none, none, none, [], false⟩ : BlockIter).index = sOne.index + 1 :=
  ⟨by decide,
   c9_slice_index_advance wOne 20 sOne 1 [] ⟨1, 1, some 0, none, none, none, [], false⟩ [5]
     rfl (by decide)⟩

/-- Claim C1: within `slice`, the fatal "Length exceeded" condition is
raised exactly when, at entry, the cursor's index plus the requested length
equals the branch's `content_len` — equality, not strict excess — for every
cursor state and every requested length.  (The defects a strictly excessive
request can hit later in the walk carry different messages.) -/
theorem c1_slice_length_exceeded_iff (w : World) (fuel : Nat) (it : BlockIter) (len : Nat)
    (value : List Nat) :
    slice w fuel it len value = .panic .lengthExceeded ↔
      it.index + len = w.branch.content_len := by
  constructor
  · intro h
    simp only [slice] at h
    split at h
    · rename_i hc
      simpa using hc
    · split at h
      · cases h
      · rename_i p hp
        cases h
        exact absurd hp (sliceOuter_ne_lengthExceeded w _ _ _ _ _)
      · cases h
  · intro h
    simp [slice, h]

/-- At a positive residual length the forward guard can only be false once
the walk is at the end with no active move. -/
theorem can_forward_false_of_pos (w : World) (it : BlockIter) (ptr : Option Ptr) (len : Nat)
    (hlen : 0 < len) (h : it.can_forward w ptr len = false) :
    it.reached_end = true ∧ it.curr_move = none := by
  constructor
  · cases hre : it.reached_end
    · exfalso
      unfold BlockIter.can_forward at h
      rw [hre] at h
      simp [hlen] at h
    · rfl
  · cases hcm : it.curr_move with
    | none => rfl
    | some x =>
      exfalso
      unfold BlockIter.can_forward at h
      rw [hcm] at h
      simp [hlen] at h

/-- `pop` always clears the reached-end flag. -/
theorem pop_reached (it : BlockIter) (w : World) : (it.pop w).reached_end = false := by
  unfold BlockIter.pop
  split <;> rfl

/-- What a normally returning forward loop guarantees: the index is not
touched inside the loop, the residual length never grows, and a positive
residual is handed back only at the chain end, outside any move, with a
clear offset and a concrete handle. -/
theorem forwardLoop_ok_props (w : World) :
    ∀ fuel it item len it' item' len',
      (0 < len → it.rel = 0) →
      (item = none → it.reached_end = false ∨ it.curr_move ≠ none) →
      forwardLoop w fuel it item len = .ok (it', item', len') →
      it'.index = it.index ∧ len' ≤ len ∧
        (0 < len' → it'.reached_end = true ∧ it'.curr_move = none ∧ it'.rel = 0 ∧
          item' ≠ none) := by
  intro fuel
  induction fuel with
  | zero => intro it item len it' item' len' h1 h2 h; simp [forwardLoop] at h
  | succ n ih =>
    intro it item len it' item' len' h1 h2 h
    simp only [forwardLoop] at h
    split at h
    · split at h
      · -- exit of the innermost move context
        have hp := ih _ _ _ _ _ _ (fun hl => by rw [(pop_index_rel it w).2]; exact h1 hl)
          (fun _ => Or.inl (pop_reached it w)) h
        exact ⟨by rw [hp.1, (pop_index_rel it w).1], hp.2.1, hp.2.2⟩
      · split at h
        · cases h
        · split at h
          · exact ih _ _ _ _ _ _ h1 h2 h
          · split at h
            · split at h
              · -- partial consumption of the current block
                injection h with h
                simp only [Prod.mk.injEq] at h
                obtain ⟨e1, e2, e3⟩ := h
                refine ⟨by rw [← e1], by omega, fun hl => absurd hl (by omega)⟩
              · -- full consumption, then the structural step
                split at h
                · cases h
                · rename_i hlenc it2 pr hft
                  have hc := forwardFallthrough_cases _ _ _ _ hft
                  have hrel2 : it2.rel = it.rel := by
                    rcases hc.1 with he | he
                    · have he' : it2 = it := he
                      rw [he']
                    · have he' : it2 = { it with reached_end := true } := he
                      rw [he']
                  have hprs : pr ≠ none := by
                    rcases hc.2 with he | ⟨r, hr, he⟩
                    · have he' : pr = _ := he
                      rw [he']
                      simp
                    · have he' : pr = some r := he
                      rw [he']
                      simp
                  have hp := ih _ _ _ _ _ _
                    (fun hl => by rw [hrel2]; exact h1 (by omega))
                    (fun hn => absurd hn hprs) h
                  have hidx2 : it2.index = it.index := by
                    rcases hc.1 with he | he
                    · have he' : it2 = it := he
                      rw [he']
                    · have he' : it2 = { it with reached_end := true } := he
                      rw [he']
                  exact ⟨by rw [hp.1, hidx2], by omega, hp.2.2⟩
            · split at h
              · split at h
                · -- entering a (possibly nested) move
                  have hp := ih _ _ _ _ _ _
                    (fun hl => by
                      have := h1 hl
                      cases it.curr_move <;> simp [this])
                    (fun _ => Or.inr (by cases it.curr_move <;> simp)) h
                  refine ⟨?_, hp.2.1, hp.2.2⟩
                  rw [hp.1]
                  cases it.curr_move <;> simp
                · split at h
                  · cases h
                  · rename_i it2 pr hft
                    have hc := forwardFallthrough_cases _ _ _ _ hft
                    have hrel2 : it2.rel = it.rel := by
                      rcases hc.1 with he | he
                      · have he' : it2 = it := he
                        rw [he']
                      · have he' : it2 = { it with reached_end := true } := he
                        rw [he']
                    have hprs : pr ≠ none := by
                      rcases hc.2 with he | ⟨r, hr, he⟩
                      · have he' : pr = _ := he
                        rw [he']
                        simp
                      · have he' : pr = some r := he
                        rw [he']
                        simp
                    have hp := ih _ _ _ _ _ _
                      (fun hl => by rw [hrel2]; exact h1 hl)
                      (fun hn => absurd hn hprs) h
                    have hidx2 : it2.index = it.index := by
                      rcases hc.1 with he | he
                      · have he' : it2 = it := he
                        rw [he']
                      · have he' : it2 = { it with reached_end := true } := he
                        rw [he']
                    exact ⟨by rw [hp.1, hidx2], hp.2.1, hp.2.2⟩
              · split at h
                · cases h
                · rename_i it2 pr hft
                  have hc := forwardFallthrough_cases _ _ _ _ hft
                  have hrel2 : it2.rel = it.rel := by
                    rcases hc.1 with he | he
                    · have he' : it2 = it := he
                      rw [he']
                    · have he' : it2 = { it with reached_end := true } := he
                      rw [he']
                  have hprs : pr ≠ none := by
                    rcases hc.2 with he | ⟨r, hr, he⟩
                    · have he' : pr = _ := he
                      rw [he']
                      simp
                    · have he' : pr = some r := he
                      rw [he']
                      simp
                  have hp := ih _ _ _ _ _ _
                    (fun hl => by rw [hrel2]; exact h1 hl)
                    (fun hn => absurd hn hprs) h
                  have hidx2 : it2.index = it.index := by
                    rcases hc.1 with he | he
                    · have he' : it2 = it := he
                      rw [he']
                    · have he' : it2 = { it with reached_end := true } := he
                      rw [he']
                  exact ⟨by rw [hp.1, hidx2], hp.2.1, hp.2.2⟩
    · -- the guard is false: the walk stops here
      rename_i hcf
      injection h with h
      simp only [Prod.mk.injEq] at h
      obtain ⟨e1, e2, e3⟩ := h
      refine ⟨by rw [← e1], by omega, fun hl => ?_⟩
      have hcf' : it.can_forward w item len = false := by
        cases hx : it.can_forward w item len
        · rfl
        · exact absurd hx hcf
      have hstop := can_forward_false_of_pos w it item len (by omega) hcf'
      have hrel : it.rel = 0 := h1 (by omega)
      have hitem : item ≠ none := by
        intro hn
        rcases h2 hn with hco | hco
        · rw [hstop.1] at hco
          cases hco
        · exact hco hstop.2
      rw [← e1, ← e2]
      exact ⟨hstop.1, hstop.2, hrel, hitem⟩

/-- What a normally returning `forward` call guarantees: either it was the
trivial zero-length call on an absent handle, or the index advanced by the
requested length minus a residual that is positive only at the chain end,
outside any move, with a clear offset and a present `next_item`. -/
theorem forward_ok_props (w : World) (fuel : Nat) (it : BlockIter) (len : Nat)
    (it' : BlockIter) (h : forward w fuel it len = .ok it') :
    (len = 0 ∧ it.next_item = none ∧ it' = it) ∨
      ∃ len', it'.index + len' = it.index + len ∧
        (0 < len' → it'.reached_end = true ∧ it'.curr_move = none ∧ it'.rel = 0 ∧
          it'.next_item ≠ none) := by
  simp only [forward] at h
  split at h
  · rename_i hcond
    injection h with h
    subst h
    simp only [Bool.and_eq_true, beq_iff_eq, Option.isNone_iff_eq_none] at hcond
    exact Or.inl ⟨hcond.1, hcond.2, rfl⟩
  · split at h
    · cases h
    · rename_i hc1 hc2
      have hnn : it.next_item ≠ none := by
        simp only [Bool.or_eq_true, decide_eq_true_eq, Option.isNone_iff_eq_none, not_or] at hc2
        exact hc2.2
      split at h
      · rename_i it₂ item₂ len₂ heq
        right
        by_cases hrel : it.rel = 0
        · simp only [hrel, bne_self_eq_false, Bool.false_eq_true, if_false] at heq
          have hp := forwardLoop_ok_props w _ _ _ _ _ _ _ (by intro hx; rfl)
            (fun hn => absurd hn hnn) heq
          split at h
          · rename_i hle
            injection h with h
            subst h
            simp only [decide_eq_true_eq] at hle
            refine ⟨len₂, ?_, fun hl => ?_⟩
            · have hi2 : it₂.index = it.index + len := hp.1
              simp only []
              omega
            · obtain ⟨hx1, hx2, hx3, hx4⟩ := hp.2.2 hl
              exact ⟨hx1, hx2, hx3, hx4⟩
          · cases h
        · have hbne : (it.rel != 0) = true := by simp [bne, hrel]
          simp only [hbne, if_true] at heq
          have hp := forwardLoop_ok_props w _ _ _ _ _ _ _ (by intro hx; rfl)
            (fun hn => absurd hn hnn) heq
          split at h
          · rename_i hle
            injection h with h
            subst h
            simp only [decide_eq_true_eq] at hle
            refine ⟨len₂, ?_, fun hl => ?_⟩
            · have hi2 : it₂.index = it.index + len := hp.1
              simp only []
              omega
            · obtain ⟨hx1, hx2, hx3, hx4⟩ := hp.2.2 hl
              exact ⟨hx1, hx2, hx3, hx4⟩
          · cases h
      · cases h
      · cases h

/-- The tail of the backward loop body never moves the index. -/
theorem backwardFallthrough_index (it : BlockIter) (w : World) (item : Option Ptr) :
    (backwardFallthrough it w item).1.index = it.index := by
  simp only [backwardFallthrough]
  split
  · exact (pop_index_rel it w).1
  · rfl

/-- The backward loop never moves the index: `backward` sets it once at
entry. -/
theorem backwardLoop_index (w : World) :
    ∀ fuel it item len it' item', backwardLoop w fuel it item len = .ok (it', item') →
      it'.index = it.index := by
  intro fuel
  induction fuel with
  | zero => intro it item len it' item' h; simp [backwardLoop] at h
  | succ n ih =>
    intro it item len it' item' h
    simp only [backwardLoop] at h
    repeat' split at h
    all_goals
      first
        | (cases h; rfl)
        | (exact (ih _ _ _ _ _ h).trans (backwardFallthrough_index _ w _))
        | (refine (ih _ _ _ _ _ h).trans ?_; cases it.curr_move <;> simp)

/-- A normally returning `backward` call lands exactly at the requested
distance below the old index. -/
theorem backward_ok_index (w : World) (fuel : Nat) (it : BlockIter) (len : Nat)
    (it' : BlockIter) (h : backward w fuel it len = .ok it') :
    it'.index + len = it.index := by
  simp only [backward] at h
  split at h
  · cases h
  · rename_i hge
    have hle : len ≤ it.index := by
      simp only [decide_eq_true_eq, Nat.not_lt] at hge
      omega
    cases hgo : w.getOpt it.next_item with
    | none =>
      simp only [hgo] at h
      repeat' split at h
      all_goals
        first
          | (cases h; show it.index - len + len = it.index; omega)
          | cases h
      all_goals
        (rename_i itL itemL heq
         have h2 := backwardLoop_index w _ _ _ _ _ _ heq
         have h3 : itL.index = it.index - len := h2
         show itL.index + len = it.index
         omega)
    | some ni =>
      simp only [hgo] at h
      repeat' split at h
      all_goals
        first
          | (cases h; show it.index - len + len = it.index; omega)
          | cases h
      all_goals
        (rename_i itL itemL heq
         have h2 := backwardLoop_index w _ _ _ _ _ _ heq
         have h3 : itL.index = it.index - len := h2
         show itL.index + len = it.index
         omega)

/-- Claim C8: for every index `i` within `[0, content_len]` for which
`move_to(i)` completes normally, calling `move_to(i)` a second time
immediately afterwards changes no field of the cursor state. -/
theorem c8_move_to_idempotent (w : World) (fuel fuel' : Nat) (it it₁ : BlockIter) (i : Nat)
    (hcl : i ≤ w.branch.content_len) (h : move_to w fuel it i = .ok it₁) :
    move_to w (fuel' + 1) it₁ i = .ok it₁ := by
  unfold move_to at h
  split at h
  · rename_i hgt
    rcases forward_ok_props w fuel it (i - it.index) it₁ h with ⟨h0, hn, he⟩ |
      ⟨len', hIdx, hProps⟩
    · exfalso
      omega
    · by_cases hl : len' = 0
      · subst hl
        have hidx : it₁.index = i := by omega
        unfold move_to
        rw [if_neg (by omega), if_neg (by omega)]
      · have hlp : 0 < len' := Nat.pos_of_ne_zero hl
        obtain ⟨hre₁, hcm₁, hrel₁, hnn₁⟩ := hProps hlp
        have hidx : it₁.index + len' = i := by omega
        have hlt : it₁.index < i := by omega
        unfold move_to
        rw [if_pos hlt]
        have hd : i - it₁.index = len' := by omega
        rw [hd]
        have hnn : it₁.next_item.isNone = false := by
          cases hx : it₁.next_item
          · exact absurd hx hnn₁
          · rfl
        have hee : ¬w.branch.content_len < it₁.index + len' := by omega
        have hsub : len' ≤ it₁.index + len' := by omega
        simp [forward, forwardLoop, BlockIter.can_forward, hre₁, hcm₁, hrel₁, hnn, hl,
          hee, hsub]
        ext <;> simp [hre₁, hcm₁, hrel₁]
  · rename_i hng
    split at h
    · rename_i hlt
      have hb := backward_ok_index w fuel it (it.index - i) it₁ h
      have hidx : it₁.index = i := by omega
      unfold move_to
      rw [if_neg (by omega), if_neg (by omega)]
    · rename_i hng2
      injection h with h
      subst h
      unfold move_to
      rw [if_neg hng, if_neg hng2]

/-- Witness for C8: moving a fresh cursor over a two-unit block to index 1
and then repeating the call leaves the state untouched, by
`c8_move_to_idempotent`. -/
theorem c8_witness :
    move_to wOne 20 sOne 1 = .ok ⟨1, 1, some 0, none, none, none, [], false⟩ ∧
      move_to wOne 20 (⟨1, 1, some 0, none, none, none, [], false⟩ : BlockIter) 1 =
        .ok ⟨1, 1, some 0, none, none, none, [], false⟩ :=
  ⟨by decide,
   c8_move_to_idempotent wOne 20 19 sOne ⟨1, 1, some 0, none, none, none, [], false⟩ 1
     (by decide) (by decide)⟩

end Yrs
